import Mathlib

/-!
Verification development for a client-side media catalog tracker
(two app variants: a screen tracker, `src/app.js`, and a book tracker,
`src/unnamed/part_001`).  JavaScript strings are modelled as lists of
characters (`Str`); JavaScript `null`/`undefined` string fields are
modelled as `Option Str`, with JS truthiness mapping both `none` and
`some ""` to false.  ISO-8601 timestamp strings compared through
`new Date(t).getTime()` in the merge code are abstracted to their epoch
millisecond values (`Option Nat`); the mutation helpers that compare
timestamp strings directly with the JS `>` operator are modelled with
code-unit lexicographic order on `Str`.
-/

/-! ## Definitions: shallow embedding of the source -/

/-- JavaScript strings, modelled as lists of characters. -/
abbrev Str := List Char

/-- Model of the JS `String.prototype.split` with a single-character
separator: `splitOnChar c s` returns the (always nonempty) list of
chunks of `s` between occurrences of `c`. -/
def splitOnChar (c : Char) : Str → List Str
  | [] => [[]]
  | x :: xs =>
    match splitOnChar c xs with
    | [] => [[]]
    | h :: t => if x = c then [] :: h :: t else (x :: h) :: t

/-- Model of the JS `Array.prototype.join` with a single-character
separator. -/
def joinChar (c : Char) : List Str → Str
  | [] => []
  | [f] => f
  | f :: g :: rest => f ++ c :: joinChar c (g :: rest)

/-- The characters removed by the JS `String.prototype.trim` (ECMA
WhiteSpace and LineTerminator code points). -/
def isJsWs (ch : Char) : Bool :=
  ([' ', '\t', '\n', '\r', Char.ofNat 11, Char.ofNat 12, Char.ofNat 160,
    Char.ofNat 5760, Char.ofNat 8192, Char.ofNat 8193, Char.ofNat 8194,
    Char.ofNat 8195, Char.ofNat 8196, Char.ofNat 8197, Char.ofNat 8198,
    Char.ofNat 8199, Char.ofNat 8200, Char.ofNat 8201, Char.ofNat 8202,
    Char.ofNat 8232, Char.ofNat 8233, Char.ofNat 8239, Char.ofNat 8287,
    Char.ofNat 12288, Char.ofNat 65279]).contains ch

/-- Model of the JS `String.prototype.trim`. -/
def jsTrim (s : Str) : Str :=
  (((s.dropWhile isJsWs).reverse).dropWhile isJsWs).reverse

/-- JS code-unit lexicographic comparison `a < b` on strings. -/
def strLt : Str → Str → Bool
  | [], [] => false
  | [], _ :: _ => true
  | _ :: _, [] => false
  | a :: as, b :: bs => if a < b then true else if b < a then false else strLt as bs

/-- JS truthiness of a possibly-null string (`null`, `undefined` and the
empty string are falsy). -/
def truthy : Option Str → Bool
  | none => false
  | some s => s ≠ []

/-- The JS `a || b` idiom on strings (empty string is falsy). -/
def jsOr (a b : Str) : Str := if a = [] then b else a

/-- The JS `s || null` idiom: an empty string becomes `null`. -/
def optOf (s : Str) : Option Str := if s = [] then none else some s

/-- A tracked screen, as held in `state.screens` and produced by
`tsvToScreens`.  The local-only `cachedPoster` field is not modelled: it
never appears in the serialized form.  `addedAt`/`finishedAt` are
ISO-8601 strings or null; `lastWatchedEpisode` is an episode code or
null. -/
structure Screen where
  id : Str
  tmdbId : Str
  type : Str
  title : Str
  year : Str
  posterUrl : Str
  overview : Str
  tags : List Str
  lastWatchedEpisode : Option Str
  addedAt : Option Str
  finishedAt : Option Str
deriving DecidableEq

/-- The ten field values emitted for one screen by `screensToTSV`
(`src/app.js` lines 1741-1755), in canonical column order.  Note the
source applies no sanitization to any field. -/
def screenRowFields (s : Screen) : List Str :=
  [s.addedAt.getD [], s.finishedAt.getD [], s.tmdbId, s.lastWatchedEpisode.getD [],
   joinChar ',' s.tags,
   if s.type = ("tv").toList then ("show").toList else s.type,
   s.title, s.year, s.posterUrl, s.overview]

/-- Header row emitted by `screensToTSV`. -/
def screenHeader : Str :=
  ("addedAt\tfinishedAt\ttmdbID\tlastWatchedEpisode\ttags\ttype\ttitle\tyear\tposterURL\tdescription").toList

/-- `screensToTSV` (`src/app.js` lines 1739-1759): header, a newline,
then one tab-joined row per screen joined by newlines. -/
def screensToTSV (screens : List Screen) : Str :=
  screenHeader ++ '\n' :: joinChar '\n' (screens.map (fun s => joinChar '\t' (screenRowFields s)))

/-- The generated id for a decoded row without a tmdbID:
`manual_<Date.now()>_<rowIndex>`. -/
def manualScreenId (nowMs : Nat) (i : Nat) : Str :=
  ("manual_").toList ++ (Nat.repr nowMs).toList ++ '_' :: (Nat.repr i).toList

/-- Row loop of `tsvToScreens` (`src/app.js` lines 1767-1794), starting
at row index `i`: trims each line, skips blank lines and rows with fewer
than 10 tab-separated parts, and otherwise builds a screen positionally. -/
def tsvToScreensAux (nowMs : Nat) : Nat → List Str → List Screen
  | _, [] => []
  | i, ln :: rest =>
    let line := jsTrim ln
    if line = [] then tsvToScreensAux nowMs (i + 1) rest
    else
      let parts := splitOnChar '\t' line
      if parts.length < 10 then tsvToScreensAux nowMs (i + 1) rest
      else
        let internalType := if parts.getD 5 [] = ("show").toList then ("tv").toList else parts.getD 5 []
        let scr : Screen :=
          { id := if parts.getD 2 [] ≠ [] then internalType ++ '_' :: parts.getD 2 []
                  else manualScreenId nowMs i
            tmdbId := parts.getD 2 []
            type := internalType
            title := parts.getD 6 []
            year := parts.getD 7 []
            posterUrl := parts.getD 8 []
            overview := parts.getD 9 []
            tags := if parts.getD 4 [] ≠ [] then (splitOnChar ',' (parts.getD 4 [])).filter (fun t => t ≠ [])
                    else []
            lastWatchedEpisode := if parts.getD 3 [] = [] then none else some (parts.getD 3 [])
            addedAt := some (parts.getD 0 [])
            finishedAt := some (parts.getD 1 []) }
        scr :: tsvToScreensAux nowMs (i + 1) rest

/-- `tsvToScreens` (`src/app.js` lines 1762-1797).  `nowMs` models
`Date.now()` used for generated manual ids. -/
def tsvToScreens (nowMs : Nat) (tsv : Str) : List Screen :=
  let lines := splitOnChar '\n' tsv
  if lines.length < 2 then [] else tsvToScreensAux nowMs 1 (lines.drop 1)

/-- The three derived list statuses of the screen tracker. -/
inductive ScreenStatus where
  | watched
  | watching
  | to_watch
deriving DecidableEq

/-- `getScreenListStatus` (`src/app.js` lines 75-81). -/
def getScreenListStatus (screen : Screen) : Option ScreenStatus :=
  if truthy screen.finishedAt then some ScreenStatus.watched
  else if screen.type = ("tv").toList ∧ truthy screen.lastWatchedEpisode then some ScreenStatus.watching
  else if truthy screen.addedAt then some ScreenStatus.to_watch
  else none

/-- `setListTimestamps` of the screen tracker (`src/app.js` lines
110-138).  `now` models `new Date().toISOString()`. -/
def setListTimestamps (screen : Screen) (listStatus : Str) (now : Str) : Screen :=
  if listStatus = ("to_watch").toList then
    { screen with addedAt := some now, finishedAt := none, lastWatchedEpisode := none }
  else if listStatus = ("watching").toList then
    let s1 := { screen with finishedAt := none }
    if truthy s1.addedAt then s1 else { s1 with addedAt := some now }
  else if listStatus = ("watched").toList then
    let s1 := { screen with finishedAt := some now }
    if truthy s1.addedAt then s1 else { s1 with addedAt := s1.finishedAt }
  else screen

/-- A tracked book, as held in `state.books` and produced by
`tsvToBooks`.  The local-only `cachedCover` field is not modelled: it
never appears in the serialized form. -/
structure Book where
  id : Str
  isbn : Str
  title : Str
  author : Str
  year : Str
  description : Option Str
  coverUrl : Option Str
  tags : List Str
  addedAt : Option Str
  startedAt : Option Str
  finishedAt : Option Str
deriving DecidableEq

/-- Replace every occurrence of character `a` by `b`. -/
def replaceChar (a b : Char) (s : Str) : Str := s.map (fun c => if c = a then b else c)

/-- Remove every occurrence of character `a`. -/
def removeChar (a : Char) (s : Str) : Str := s.filter (fun c => c ≠ a)

/-- The single-quote character. -/
def apostrophe : Char := Char.ofNat 39

/-- `escapeField` from `booksToTSV` (`src/unnamed/part_001` lines
1643-1646): tab and newline become a space, carriage return is removed,
double quote becomes a single quote; null becomes the empty string. -/
def escapeField (str : Option Str) : Str :=
  match str with
  | none => []
  | some s =>
    if s = [] then []
    else replaceChar '"' apostrophe (removeChar '\r' (replaceChar '\n' ' ' (replaceChar '\t' ' ' s)))

/-- The ten field values emitted for one book by `booksToTSV`
(`src/unnamed/part_001` lines 1647-1658).  Only `title`, `author` and
`description` pass through `escapeField`. -/
def bookRowFields (b : Book) : List Str :=
  [b.addedAt.getD [], b.startedAt.getD [], b.finishedAt.getD [],
   b.isbn,
   if b.tags ≠ [] then joinChar ',' b.tags else [],
   escapeField (some b.title), escapeField (some b.author),
   b.year,
   b.coverUrl.getD [],
   escapeField b.description]

/-- Header row emitted by `booksToTSV`. -/
def bookHeader : Str :=
  ("addedAt\tstartedAt\tfinishedAt\tisbn\ttags\ttitle\tauthor\tyear\tcoverUrl\tdescription").toList

/-- `booksToTSV` (`src/unnamed/part_001` lines 1635-1664): header plus
one row per book that has an ISBN, joined by newlines. -/
def booksToTSV (books : List Book) : Str :=
  joinChar '\n' (bookHeader :: (books.filter (fun b => b.isbn ≠ [])).map (fun b => joinChar '\t' (bookRowFields b)))

def sAddedAt : Str := ("addedAt").toList

def sStartedAt : Str := ("startedAt").toList

def sFinishedAt : Str := ("finishedAt").toList

def sIsbn : Str := ("isbn").toList

def sTags : Str := ("tags").toList

def sTitle : Str := ("title").toList

def sAuthor : Str := ("author").toList

def sYear : Str := ("year").toList

def sCoverUrl : Str := ("coverUrl").toList

def sDescription : Str := ("description").toList

/-- The canonical column order expected by `tsvToBooks`. -/
def expectedColumnOrder : List Str :=
  [sAddedAt, sStartedAt, sFinishedAt, sIsbn, sTags, sTitle, sAuthor, sYear, sCoverUrl, sDescription]

/-- The column-name-to-index map built by `tsvToBooks` from the header
row: each header cell is trimmed, later duplicates win (JS object
assignment in a forEach). -/
def colIdx (header : List Str) (name : Str) : Option Nat :=
  ((header.enum.filter (fun p => decide (jsTrim p.2 = name))).getLast?).map (fun p => p.1)

/-- `getValue` from the row loop of `tsvToBooks`: looks the column up in
the map and trims the cell, defaulting to the empty string. -/
def getValue (header : List Str) (cols : List Str) (name : Str) : Str :=
  match colIdx header name with
  | none => []
  | some idx => jsTrim (cols.getD idx [])

/-- `sanitizeField` from the row loop of `tsvToBooks`: double quotes
become single quotes. -/
def sanitizeField (s : Str) : Str := if s = [] then [] else replaceChar '"' apostrophe s

/-- The `isWrongOrder` check of `tsvToBooks`: the trimmed header cells
must begin with the ten canonical column names in order. -/
def headerWrongOrder (actualOrder : List Str) : Bool :=
  !(expectedColumnOrder.enum.all (fun p => decide (actualOrder.get? p.1 = some p.2)))

/-- The `needsMigration` check of `tsvToBooks`: the legacy schema is
detected when the raw (untrimmed) header lacks a `startedAt` or
`finishedAt` cell. -/
def legacyHeader (header : List Str) : Bool :=
  !(header.contains sStartedAt) || !(header.contains sFinishedAt)

/-- Result of one Google Books lookup, as consumed by the backfill path
of `tsvToBooks`.  `authors` models the joined author list, `year` the
four-character publication year, `coverUrl` the best cover link; an
absent value is the empty string.  `none` for a whole lookup models both
an empty result set and a network failure - the source builds the
identical fallback book in those two branches. -/
structure VolumeInfo where
  id : Str
  title : Str
  authors : Str
  year : Str
  description : Str
  coverUrl : Str
deriving DecidableEq

def sToRead : Str := ("to_read").toList

def sReading : Str := ("reading").toList

def sRead : Str := ("read").toList

/-- The legacy tag-encoded list statuses. -/
def migrationTags : List Str := [sToRead, sReading, sRead]

def uTitle : Str := ("Unknown Title").toList

def uAuthor : Str := ("Unknown Author").toList

def sNA : Str := ("N/A").toList

/-- Book construction at the end of the row loop of `tsvToBooks`
(`src/unnamed/part_001` lines 1772-1858): when every denormalized field
is present the book is built from the row alone; otherwise the Google
Books lookup (the `oracle`) backfills the missing fields, with row
values always taking precedence, and both the empty-result and the
network-failure continuations build the same fallback book. -/
def buildBook (oracle : Str → Option VolumeInfo) (isbn title author year description coverUrl : Str)
    (tags : List Str) (addedAt startedAt finishedAt : Str) : Book :=
  if ¬ (title = [] ∨ author = [] ∨ year = [] ∨ description = [] ∨ coverUrl = []) then
    { id := isbn, isbn := isbn,
      title := jsOr title uTitle, author := jsOr author uAuthor, year := jsOr year sNA,
      description := optOf description, coverUrl := optOf coverUrl,
      tags := tags, addedAt := optOf addedAt, startedAt := optOf startedAt,
      finishedAt := optOf finishedAt }
  else
    match oracle isbn with
    | some vi =>
      { id := jsOr vi.id isbn, isbn := isbn,
        title := jsOr title (jsOr vi.title uTitle),
        author := jsOr author (jsOr vi.authors uAuthor),
        year := jsOr year (jsOr vi.year sNA),
        description := optOf (jsOr description vi.description),
        coverUrl := optOf (jsOr coverUrl vi.coverUrl),
        tags := tags, addedAt := optOf addedAt, startedAt := optOf startedAt,
        finishedAt := optOf finishedAt }
    | none =>
      { id := isbn, isbn := isbn,
        title := jsOr title uTitle, author := jsOr author uAuthor, year := jsOr year sNA,
        description := optOf description, coverUrl := optOf coverUrl,
        tags := tags, addedAt := optOf addedAt, startedAt := optOf startedAt,
        finishedAt := optOf finishedAt }

/-- One iteration of the row loop of `tsvToBooks` (`src/unnamed/part_001`
lines 1699-1859): `none` when the row has no ISBN (the row is skipped),
otherwise the constructed book together with the flag recording whether
`sanitizeField` changed the title, author or description of this row.
The asynchronous Google Books backfill is modelled by the `oracle`
parameter; all three fetch continuations push a book, so every ISBN row
yields exactly one book regardless of the network. -/
def parseBookRow (oracle : Str → Option VolumeInfo) (needsMigration : Bool)
    (header : List Str) (ln : Str) : Option (Book × Bool) :=
  let cols := splitOnChar '\t' ln
  let isbn := getValue header cols sIsbn
  if isbn = [] then none
  else
    let rawTitle := getValue header cols sTitle
    let rawAuthor := getValue header cols sAuthor
    let rawDescription := getValue header cols sDescription
    let title := sanitizeField rawTitle
    let author := sanitizeField rawAuthor
    let year := getValue header cols sYear
    let description := sanitizeField rawDescription
    let coverUrl := getValue header cols sCoverUrl
    let tagsStr := getValue header cols sTags
    let addedAt0 := getValue header cols sAddedAt
    let startedAt0 := getValue header cols sStartedAt
    let finishedAt0 := getValue header cols sFinishedAt
    let tags0 := if tagsStr ≠ [] then (splitOnChar ',' tagsStr).filter (fun t => jsTrim t ≠ []) else []
    let listTag := tags0.find? (fun t => migrationTags.contains t)
    let startedAt1 :=
      if needsMigration then
        match listTag with
        | some t => if t = sToRead then [] else addedAt0
        | none => startedAt0
      else startedAt0
    let finishedAt1 :=
      if needsMigration then
        match listTag with
        | some t => if t = sRead then addedAt0 else []
        | none => finishedAt0
      else finishedAt0
    let tags1 := if needsMigration then tags0.filter (fun t => !(migrationTags.contains t)) else tags0
    let addedAt1 :=
      if startedAt1 ≠ [] then
        if addedAt0 = [] ∨ strLt startedAt1 addedAt0 then startedAt1 else addedAt0
      else addedAt0
    let startedAt2 :=
      if finishedAt1 ≠ [] then
        if startedAt1 = [] ∨ strLt finishedAt1 startedAt1 then finishedAt1 else startedAt1
      else startedAt1
    let addedAt2 :=
      if finishedAt1 ≠ [] then
        if addedAt1 = [] ∨ strLt startedAt2 addedAt1 then startedAt2 else addedAt1
      else addedAt1
    let changed := decide (title ≠ rawTitle) || decide (author ≠ rawAuthor) || decide (description ≠ rawDescription)
    some (buildBook oracle isbn title author year description coverUrl tags1 addedAt2 startedAt2 finishedAt1, changed)

/-- `tsvToBooks` (`src/unnamed/part_001` lines 1668-1880).  Books from
backfilled rows are placed in row order here, whereas the source appends
them at promise-resolution time; every property established below is
insensitive to the order of the returned list.  The source's local
`needsUpdate` variable (which additionally inspects the `_needsUpdate`
markers) is dead - the returned flag is
`isWrongOrder || needsMigration || needsSanitization` - so the markers
are not modelled. -/
def tsvToBooks (oracle : Str → Option VolumeInfo) (tsv : Str) : List Book × Bool :=
  let lines := splitOnChar '\n' (jsTrim tsv)
  match lines with
  | [] => ([], false)
  | headerLine :: dataLines =>
    let header := splitOnChar '\t' headerLine
    let actualOrder := header.map jsTrim
    let isWrongOrder := headerWrongOrder actualOrder
    let needsMigration := legacyHeader header
    let parsed := dataLines.filterMap (parseBookRow oracle needsMigration header)
    let books := parsed.map (fun p => p.1)
    let needsSanitization := parsed.any (fun p => p.2)
    (books, isWrongOrder || needsMigration || needsSanitization)

/-- The three derived list statuses of the book tracker. -/
inductive BookStatus where
  | read
  | reading
  | to_read
deriving DecidableEq

/-- `getBookListStatus` (`src/unnamed/part_001` lines 25-30). -/
def getBookListStatus (book : Book) : Option BookStatus :=
  if truthy book.finishedAt then some BookStatus.read
  else if truthy book.startedAt then some BookStatus.reading
  else if truthy book.addedAt then some BookStatus.to_read
  else none

/-- `setListTimestamps` of the book tracker (`src/unnamed/part_001`
lines 49-79).  `now` models `new Date().toISOString()`; the source
compares the ISO strings with the JS `>` operator, modelled by `strLt`. -/
def setListTimestampsBook (book : Book) (listStatus : Str) (now : Str) : Book :=
  if listStatus = sToRead then
    { book with addedAt := some now, startedAt := none, finishedAt := none }
  else if listStatus = sReading then
    let b1 := { book with startedAt := some now, finishedAt := none }
    if ¬ truthy b1.addedAt ∨ strLt now (b1.addedAt.getD []) then { b1 with addedAt := some now }
    else b1
  else if listStatus = sRead then
    let b1 := { book with finishedAt := some now }
    let st2 := if ¬ truthy b1.startedAt ∨ strLt now (b1.startedAt.getD []) then some now else b1.startedAt
    let b2 := { b1 with startedAt := st2 }
    if ¬ truthy b2.addedAt ∨ strLt (st2.getD []) (b2.addedAt.getD []) then { b2 with addedAt := st2 }
    else b2
  else book

/-- A screen as seen by the merge code: identical to `Screen` except
that the three timestamp slots (`addedAt`, `startedAt`, `finishedAt` -
the exact list read by `getLatestTimestamp`) carry their epoch
millisecond values. -/
structure MergeScreen where
  id : Str
  tmdbId : Str
  type : Str
  title : Str
  year : Str
  posterUrl : Str
  overview : Str
  tags : List Str
  lastWatchedEpisode : Option Str
  addedAt : Option Nat
  startedAt : Option Nat
  finishedAt : Option Nat
deriving DecidableEq

/-- `getLatestTimestamp` (`src/app.js` lines 1586-1590): the maximum of
the set timestamps, or null when none is set. -/
def getLatestTimestamp (screen : MergeScreen) : Option Nat :=
  match [screen.addedAt, screen.startedAt, screen.finishedAt].filterMap id with
  | [] => none
  | t :: ts => some (ts.foldl max t)

/-- The replacement condition of `mergeScreens` (`src/app.js` line
1613): `remoteLatest && (!localLatest || remoteLatest > localLatest)`. -/
def remoteIsNewer (localScreen remoteScreen : MergeScreen) : Bool :=
  match getLatestTimestamp remoteScreen with
  | none => false
  | some r =>
    match getLatestTimestamp localScreen with
    | none => true
    | some l => decide (l < r)

/-- Model of `Map.prototype.set`: updating an existing key keeps its
position, a new key is appended (JS Map insertion order). -/
def mapSet (m : List (Str × MergeScreen)) (k : Str) (v : MergeScreen) :
    List (Str × MergeScreen) :=
  if m.any (fun p => decide (p.1 = k)) then
    m.map (fun p => if p.1 = k then (k, v) else p)
  else m ++ [(k, v)]

/-- Model of `Map.prototype.get`. -/
def mapGet (m : List (Str × MergeScreen)) (k : Str) : Option MergeScreen :=
  (m.find? (fun p => decide (p.1 = k))).map (fun p => p.2)

/-- The first loop of `mergeScreens`: add all local screens to the map. -/
def insertLocal (m : List (Str × MergeScreen)) (locals : List MergeScreen) :
    List (Str × MergeScreen) :=
  locals.foldl (fun acc s => mapSet acc s.id s) m

/-- The second loop of `mergeScreens`: a remote screen is added when its
id is absent, and replaces the stored screen when `remoteIsNewer`. -/
def insertRemote (m : List (Str × MergeScreen)) (remotes : List MergeScreen) :
    List (Str × MergeScreen) :=
  remotes.foldl
    (fun acc r =>
      match mapGet acc r.id with
      | none => mapSet acc r.id r
      | some localScreen => if remoteIsNewer localScreen r then mapSet acc r.id r else acc)
    m

/-- `mergeScreens` (`src/app.js` lines 1593-1622).  Note the function
takes no last-sync timestamp: local screens are never dropped. -/
def mergeScreens (localScreens remoteScreens : List MergeScreen) : List MergeScreen :=
  (insertRemote (insertLocal [] localScreens) remoteScreens).map (fun p => p.2)

/-- The effect of the mutation-triggered sync of the screen tracker on
the in-memory collection: `saveToLocalStorage` (`src/app.js` lines
1464-1474) calls `syncWithGitHub`, whose steps 1-3 (lines 1643-1676)
pull the remote document and replace `state.screens` with
`mergeScreens(state.screens, remoteScreens)`.  `localScreens` is the
collection at the time of the mutation and `remoteScreens` the decoded
remote document. -/
def screenMutationSyncApply (localScreens remoteScreens : List MergeScreen) : List MergeScreen :=
  mergeScreens localScreens remoteScreens

/-- The slice of the book tracker's global state touched by the sync
functions, together with the two external stores they write:
`gistDoc` is the content of the remote document (the gist file) and
`cache` the localStorage snapshot of the collection. -/
structure BookSyncState where
  books : List Book
  apiToken : Str
  gistId : Str
  isSyncing : Bool
  lastSyncTime : Option Nat
  gistDoc : Option Str
  cache : Option (List Book)
deriving DecidableEq

/-- `pushToGitHub` (`src/unnamed/part_001` lines 2062-2078): aborts when
the token or gist id is missing or a sync is already in flight;
otherwise writes `booksToTSV(state.books)` to the remote document
(`updateGist`).  `ok` models whether the network write succeeds; a
failure is caught and swallowed.  The function performs no read of the
remote document and never touches `state.books`. -/
def pushToGitHub (ok : Bool) (st : BookSyncState) : BookSyncState :=
  if jsTrim st.apiToken = [] ∨ jsTrim st.gistId = [] then st
  else if st.isSyncing then st
  else if ok then { st with gistDoc := some (booksToTSV st.books) } else st

/-- `saveToLocalStorage` of the book tracker (`src/unnamed/part_001`
lines 2153-2157): writes the collection to the local cache, then calls
`pushToGitHub`. -/
def saveToLocalStorageBook (ok : Bool) (st : BookSyncState) : BookSyncState :=
  pushToGitHub ok { st with cache := some st.books }

/-- `syncWithGitHub` of the book tracker (`src/unnamed/part_001` lines
1991-2059).  `fetchOutcome` models the gist fetch: `none` is a thrown
fetch error, `some none` a gist without a `books.tsv` file, and
`some (some tsv)` the file content.  `createOk`/`updOk` model the
success of `createGist`/`updateGist`, `newGistId` the id of a freshly
created gist, `now` the `Date.now()` value.  On the successful-pull path
the collection is replaced by the decoded remote list, the local cache
is rewritten through `saveToLocalStorageBook` (whose push is suppressed
because `isSyncing` is set), and the document is rewritten only when the
decoder requested a corrective write-back. -/
def syncWithGitHubBook (oracle : Str → Option VolumeInfo)
    (fetchOutcome : Option (Option Str)) (createOk updOk : Bool)
    (newGistId : Str) (now : Nat) (st : BookSyncState) : BookSyncState :=
  if st.isSyncing then st
  else if jsTrim st.apiToken = [] then st
  else
    let stBusy := { st with isSyncing := true }
    if jsTrim st.gistId = [] then
      if createOk then
        { stBusy with gistDoc := some (booksToTSV stBusy.books), gistId := newGistId,
                      isSyncing := false, lastSyncTime := some now }
      else { stBusy with isSyncing := false }
    else
      match fetchOutcome with
      | none => { stBusy with isSyncing := false }
      | some none => { stBusy with isSyncing := false, lastSyncTime := some now }
      | some (some tsv) =>
        let result := tsvToBooks oracle tsv
        let st1 := { stBusy with books := result.1 }
        let st2 := saveToLocalStorageBook true st1
        if result.2 then
          if updOk then
            { st2 with gistDoc := some (booksToTSV st2.books), isSyncing := false,
                       lastSyncTime := some now }
          else { st2 with isSyncing := false }
        else { st2 with isSyncing := false, lastSyncTime := some now }

/-- A merge screen with only the fields relevant to identity and
timestamps populated (concrete instance builder for examples). -/
def mkMergeScreen (idS : Str) (a s f : Option Nat) : MergeScreen :=
  { id := idS, tmdbId := [], type := [], title := [], year := [], posterUrl := [],
    overview := [], tags := [], lastWatchedEpisode := none,
    addedAt := a, startedAt := s, finishedAt := f }

/-- A locally stored screen added at time 50, last synced at time 100. -/
def xC1 : MergeScreen := mkMergeScreen (("movie_603").toList) (some 50) none none

/-- A remote-only screen with an id different from `xC1`. -/
def yC1 : MergeScreen := mkMergeScreen (("tv_1399").toList) (some 30) none none

/-- A screen that was deleted locally but is still in the remote
document. -/
def xC2 : MergeScreen := mkMergeScreen (("movie_550").toList) (some 10) none (some 20)

/-- Local copy of a screen, last active at time 40. -/
def xC3 : MergeScreen := mkMergeScreen (("movie_603").toList) (some 10) (some 40) none

/-- Remote copy of the same screen, last active at time 70. -/
def yC3 : MergeScreen := mkMergeScreen (("movie_603").toList) (some 10) none (some 70)

/-- A book with `startedAt` set and `finishedAt` unset. -/
def bC7 : Book :=
  { id := ("9780140328721").toList, isbn := ("9780140328721").toList,
    title := ("Matilda").toList, author := ("Roald Dahl").toList, year := ("1988").toList,
    description := none, coverUrl := none, tags := [],
    addedAt := some (("2024-01-01").toList), startedAt := some (("2024-01-02").toList),
    finishedAt := none }

/-- A screen whose `addedAt` lies in the future of the mutation time. -/
def sC8 : Screen :=
  { id := ("movie_78").toList, tmdbId := ("78").toList, type := ("movie").toList,
    title := ("Blade Runner").toList, year := ("1982").toList, posterUrl := [], overview := [],
    tags := [], lastWatchedEpisode := none,
    addedAt := some (("2025-06-01").toList), finishedAt := none }

/-- The mutation time for the C8 counterexample. -/
def nowC8 : Str := ("2024-01-01").toList

/-- A book added in 2020 (for the C8 witness). -/
def bC8 : Book :=
  { id := ("9780000000001").toList, isbn := ("9780000000001").toList,
    title := ("Dune").toList, author := ("Frank Herbert").toList, year := ("1965").toList,
    description := none, coverUrl := none, tags := [],
    addedAt := some (("2020").toList), startedAt := none, finishedAt := none }

/-- A screen whose title contains an embedded tab. -/
def sC5 : Screen :=
  { id := ("movie_1").toList, tmdbId := ("1").toList, type := ("movie").toList,
    title := ['a', '\t', 'b'], year := ("1990").toList, posterUrl := [], overview := [],
    tags := [], lastWatchedEpisode := none, addedAt := some (("2024").toList),
    finishedAt := none }

/-- The line list of a book TSV document (the source trims the document
then splits on newlines). -/
def tsvLines (tsv : Str) : List Str := splitOnChar '\n' (jsTrim tsv)

/-- The parsed header row of a book TSV document. -/
def bookTsvHeader (tsv : Str) : List Str := splitOnChar '\t' ((tsvLines tsv).headD [])

/-- The data lines of a book TSV document. -/
def bookTsvDataLines (tsv : Str) : List Str := (tsvLines tsv).tail

/-- The (trimmed) ISBN cell of one data row. -/
def rowIsbn (header : List Str) (ln : Str) : Str := getValue header (splitOnChar '\t' ln) sIsbn

/-- A TSV document whose single data row has ten fields but an empty
tmdbID cell. -/
def tsvC9 : Str :=
  ("addedAt\tfinishedAt\ttmdbID\tlastWatchedEpisode\ttags\ttype\ttitle\tyear\tposterURL\tdescription\n2024\t\t\t\t\tmovie\tT\t1999\tp\to").toList

/-- The screen the source decodes from `tsvC9` (with `Date.now() = 0`):
a manual-id screen with an empty tmdbID. -/
def sC9r : Screen :=
  { id := ("manual_0_1").toList, tmdbId := [], type := ("movie").toList, title := ("T").toList,
    year := ("1999").toList, posterUrl := ("p").toList, overview := ("o").toList, tags := [],
    lastWatchedEpisode := none, addedAt := some (("2024").toList), finishedAt := some [] }

/-- A remote document holding exactly one book, with ISBN 111. -/
def tsvC10 : Str :=
  ("addedAt\tstartedAt\tfinishedAt\tisbn\ttags\ttitle\tauthor\tyear\tcoverUrl\tdescription\n2020\t\t\t111\t\tT\tA\t2001\tu\td").toList

/-- A book that exists only locally (ISBN 222, added long before any
sync). -/
def xC10 : Book :=
  { id := ("222").toList, isbn := ("222").toList, title := ("Local Only").toList,
    author := ("Nobody").toList, year := ("1999").toList, description := none, coverUrl := none,
    tags := [], addedAt := some (("2019").toList), startedAt := none, finishedAt := none }

/-- A configured sync state holding only the local book `xC10`. -/
def stC10 : BookSyncState :=
  { books := [xC10], apiToken := ("t").toList, gistId := ("g").toList, isSyncing := false,
    lastSyncTime := none, gistDoc := none, cache := none }

/-- The round-trip-safe screens: the conditions under which one encoded
row decodes back to the same screen.  Beyond the claim's own
tab/newline/quote-freedom these require: a nonempty `tmdbID` (else the
decoder invents a fresh manual id), the id in the decoder's derived
shape, an in-memory `type` other than `show` (the decoder maps `show`
back to `tv`), comma-free nonempty tags, `lastWatchedEpisode` not the
empty string, `addedAt`/`finishedAt` present as strings (the decoder
always yields strings there, never null), and a row that survives the
decoder's `line.trim()`: `addedAt` must not start - and the description
must be nonempty and not end - with whitespace. -/
def roundTripSafe (s : Screen) : Prop :=
  s.tmdbId ≠ [] ∧
  s.type ≠ ("show").toList ∧
  s.id = s.type ++ '_' :: s.tmdbId ∧
  (∀ fld ∈ screenRowFields s, '\t' ∉ fld ∧ '\n' ∉ fld ∧ '"' ∉ fld) ∧
  (∀ t ∈ s.tags, t ≠ [] ∧ ',' ∉ t) ∧
  s.lastWatchedEpisode ≠ some [] ∧
  s.addedAt ≠ none ∧ s.addedAt.getD [] ≠ [] ∧
  isJsWs ((s.addedAt.getD []).headD ' ') = false ∧
  s.finishedAt ≠ none ∧
  s.overview ≠ [] ∧ isJsWs (s.overview.getLastD ' ') = false

instance roundTripSafeDecidable (s : Screen) : Decidable (roundTripSafe s) := by
  unfold roundTripSafe
  infer_instance

/-- A screen with empty poster and description fields; every field is
free of tabs, newlines and quotes, satisfying the claim's hypothesis. -/
def sC4 : Screen :=
  { id := ("movie_604").toList, tmdbId := ("604").toList, type := ("movie").toList,
    title := ("Speed").toList, year := ("1994").toList, posterUrl := [], overview := [],
    tags := [], lastWatchedEpisode := none, addedAt := some (("2024-01-01").toList),
    finishedAt := some [] }

/-- A fully populated screen satisfying `roundTripSafe`. -/
def wC4 : Screen :=
  { id := ("movie_603").toList, tmdbId := ("603").toList, type := ("movie").toList,
    title := ("The Matrix").toList, year := ("1999").toList, posterUrl := ("p.jpg").toList,
    overview := ("great").toList, tags := [("scifi").toList], lastWatchedEpisode := none,
    addedAt := some (("2024-01-01").toList), finishedAt := some [] }

/-! ## Theorems -/

theorem splitOnChar_ne_nil (c : Char) (s : Str) : splitOnChar c s ≠ [] := by
  cases s with
  | nil => simp [splitOnChar]
  | cons x xs =>
    simp only [splitOnChar]
    cases splitOnChar c xs with
    | nil => simp
    | cons h t =>
      by_cases hx : x = c <;> simp [hx]

theorem splitOnChar_of_not_mem (c : Char) (s : Str) (h : c ∉ s) :
    splitOnChar c s = [s] := by
  induction s with
  | nil => rfl
  | cons x xs ih =>
    have hxc : x ≠ c := fun he => h (by simp [he])
    have hxs : c ∉ xs := fun hm => h (by simp [hm])
    simp only [splitOnChar, ih hxs]
    simp [hxc]

theorem splitOnChar_append_cons (c : Char) (a r : Str) (h : c ∉ a) :
    splitOnChar c (a ++ c :: r) = a :: splitOnChar c r := by
  induction a with
  | nil =>
    simp only [List.nil_append, splitOnChar]
    cases hr : splitOnChar c r with
    | nil => exact absurd hr (splitOnChar_ne_nil c r)
    | cons h t => simp
  | cons x xs ih =>
    have hxc : x ≠ c := fun he => h (by simp [he])
    have hxs : c ∉ xs := fun hm => h (by simp [hm])
    simp only [List.cons_append, splitOnChar]
    simp only [List.append_eq]
    rw [ih hxs]
    simp [hxc]

theorem splitOnChar_joinChar (c : Char) (fs : List Str) (hne : fs ≠ [])
    (h : ∀ f ∈ fs, c ∉ f) : splitOnChar c (joinChar c fs) = fs := by
  induction fs with
  | nil => exact absurd rfl hne
  | cons f rest ih =>
    cases rest with
    | nil =>
      simp only [joinChar]
      exact splitOnChar_of_not_mem c f (h f (by simp))
    | cons g rest2 =>
      simp only [joinChar]
      rw [splitOnChar_append_cons c f _ (h f (by simp))]
      rw [ih (by simp) (fun x hx => h x (by simp [hx]))]

theorem mem_joinChar (c : Char) (fs : List Str) (x : Char)
    (hx : x ∈ joinChar c fs) : x = c ∨ ∃ f ∈ fs, x ∈ f := by
  induction fs with
  | nil => simp [joinChar] at hx
  | cons f rest ih =>
    cases rest with
    | nil =>
      right
      exact ⟨f, by simp, by simpa [joinChar] using hx⟩
    | cons g rest2 =>
      simp only [joinChar, List.mem_append, List.mem_cons] at hx
      rcases hx with hf | hc | hrest
      · exact Or.inr ⟨f, by simp, hf⟩
      · exact Or.inl hc
      · rcases ih hrest with h1 | ⟨f2, hf2, hxf2⟩
        · exact Or.inl h1
        · exact Or.inr ⟨f2, by simp [hf2], hxf2⟩

theorem length_splitOnChar_joinChar (c : Char) (fs : List Str) (hne : fs ≠ [])
    (h : ∀ f ∈ fs, c ∉ f) : (splitOnChar c (joinChar c fs)).length = fs.length := by
  rw [splitOnChar_joinChar c fs hne h]

theorem dropWhile_eq_self_of_head {p : Char → Bool} {x : Char} {xs : Str}
    (h : p x = false) : (x :: xs).dropWhile p = x :: xs := by
  simp [List.dropWhile, h]

theorem jsTrim_eq_self (x : Char) (mid : Str) (y : Char)
    (hx : isJsWs x = false) (hy : isJsWs y = false) :
    jsTrim (x :: (mid ++ [y])) = x :: (mid ++ [y]) := by
  unfold jsTrim
  rw [dropWhile_eq_self_of_head hx]
  have h1 : (x :: (mid ++ [y])).reverse = y :: (mid.reverse ++ [x]) := by
    simp
  rw [h1, dropWhile_eq_self_of_head hy]
  simp

theorem jsTrim_nil : jsTrim [] = [] := rfl

theorem jsTrim_single (x : Char) (hx : isJsWs x = false) :
    jsTrim [x] = [x] := by
  unfold jsTrim
  rw [dropWhile_eq_self_of_head hx]
  simp [List.dropWhile, hx]

@[simp] theorem strLt_nil_nil : strLt [] [] = false := rfl

@[simp] theorem strLt_nil_cons (y : Char) (ys : Str) : strLt [] (y :: ys) = true := rfl

@[simp] theorem strLt_cons_nil (x : Char) (xs : Str) : strLt (x :: xs) [] = false := rfl

theorem strLt_cons_cons (x : Char) (xs : Str) (y : Char) (ys : Str) :
    strLt (x :: xs) (y :: ys) =
      if x < y then true else if y < x then false else strLt xs ys := rfl

theorem strLt_irrefl (s : Str) : strLt s s = false := by
  induction s with
  | nil => rfl
  | cons a as ih => simp [strLt_cons_cons, ih]

theorem strLt_trans {a b c : Str} (h1 : strLt a b = true) (h2 : strLt b c = true) :
    strLt a c = true := by
  induction a generalizing b c with
  | nil =>
    cases b with
    | nil => simp at h1
    | cons y ys =>
      cases c with
      | nil => simp at h2
      | cons z zs => simp
  | cons x xs ih =>
    cases b with
    | nil => simp at h1
    | cons y ys =>
      cases c with
      | nil => simp at h2
      | cons z zs =>
        rw [strLt_cons_cons] at h1 h2 ⊢
        by_cases hxy : x < y
        · by_cases hyz : y < z
          · simp [lt_trans hxy hyz]
          · simp only [hyz, if_false, if_neg] at h2
            by_cases hzy : z < y
            · simp [hzy] at h2
            · have hyzeq : y = z := le_antisymm (not_lt.mp hzy) (not_lt.mp hyz)
              subst hyzeq
              simp [hxy]
        · simp only [hxy, if_neg, if_false] at h1
          by_cases hyx : y < x
          · simp [hyx] at h1
          · have hxyeq : x = y := le_antisymm (not_lt.mp hyx) (not_lt.mp hxy)
            subst hxyeq
            by_cases hyz : x < z
            · simp [hyz]
            · simp only [hyz, if_neg, if_false] at h2 ⊢
              by_cases hzy : z < x
              · simp [hzy] at h2
              · simp only [hzy, if_neg, if_false]
                simp only [hyx, if_neg, if_false] at h1
                simp [hzy] at h2
                exact ih h1 h2

theorem strLt_total (a b : Str) :
    strLt a b = true ∨ a = b ∨ strLt b a = true := by
  induction a generalizing b with
  | nil =>
    cases b with
    | nil => simp
    | cons y ys => simp
  | cons x xs ih =>
    cases b with
    | nil => simp
    | cons y ys =>
      rcases lt_trichotomy x y with hxy | hxy | hxy
      · left; simp [strLt_cons_cons, hxy]
      · subst hxy
        rcases ih ys with h | h | h
        · left; simp [strLt_cons_cons, h]
        · right; left; rw [h]
        · right; right; simp [strLt_cons_cons, h]
      · right; right; simp [strLt_cons_cons, hxy]

theorem strLe_trans {a s f : Str} (h1 : strLt s a = false) (h2 : strLt f s = false) :
    strLt f a = false := by
  by_contra hfa
  have hfa' : strLt f a = true := by
    cases h : strLt f a with
    | false => exact absurd h hfa
    | true => rfl
  rcases strLt_total a s with h | h | h
  · have := strLt_trans hfa' h
    rw [this] at h2
    exact absurd h2 (by simp)
  · subst h
    rw [hfa'] at h2
    exact absurd h2 (by simp)
  · rw [h] at h1
    exact absurd h1 (by simp)

theorem insertLocal_nil (m : List (Str × MergeScreen)) : insertLocal m [] = m := rfl

theorem insertLocal_cons (m : List (Str × MergeScreen)) (s : MergeScreen) (L : List MergeScreen) :
    insertLocal m (s :: L) = insertLocal (mapSet m s.id s) L := rfl

theorem insertRemote_nil (m : List (Str × MergeScreen)) : insertRemote m [] = m := rfl

theorem insertRemote_cons (m : List (Str × MergeScreen)) (r : MergeScreen) (R : List MergeScreen) :
    insertRemote m (r :: R) =
      insertRemote
        (match mapGet m r.id with
         | none => mapSet m r.id r
         | some localScreen => if remoteIsNewer localScreen r then mapSet m r.id r else m)
        R := rfl

theorem find?_map_upd (k : Str) (v : MergeScreen) (m : List (Str × MergeScreen))
    (hany : m.any (fun p => decide (p.1 = k)) = true) :
    (m.map (fun p => if p.1 = k then (k, v) else p)).find? (fun p => decide (p.1 = k)) = some (k, v) := by
  induction m with
  | nil => simp at hany
  | cons q qs ih =>
    by_cases hq : q.1 = k
    · rw [List.map_cons, if_pos hq, List.find?_cons_of_pos _ (by simp)]
    · rw [List.map_cons, if_neg hq, List.find?_cons_of_neg _ (by simpa using hq)]
      apply ih
      rw [List.any_cons] at hany
      cases h2 : qs.any (fun p => decide (p.1 = k)) with
      | true => rfl
      | false => rw [h2] at hany; simp [hq] at hany

theorem find?_map_upd_other (j k : Str) (v : MergeScreen) (m : List (Str × MergeScreen))
    (hjk : j ≠ k) :
    (m.map (fun p => if p.1 = j then (j, v) else p)).find? (fun p => decide (p.1 = k))
      = m.find? (fun p => decide (p.1 = k)) := by
  induction m with
  | nil => rfl
  | cons q qs ih =>
    by_cases hq : q.1 = j
    · rw [List.map_cons, if_pos hq, List.find?_cons_of_neg _ (by simp [hjk]),
        List.find?_cons_of_neg _ (by simp [hq, hjk])]
      exact ih
    · rw [List.map_cons, if_neg hq]
      by_cases hqk : q.1 = k
      · rw [List.find?_cons_of_pos _ (by simp [hqk]), List.find?_cons_of_pos _ (by simp [hqk])]
      · rw [List.find?_cons_of_neg _ (by simp [hqk]), List.find?_cons_of_neg _ (by simp [hqk])]
        exact ih

theorem mapGet_mapSet_same (m : List (Str × MergeScreen)) (k : Str) (v : MergeScreen) :
    mapGet (mapSet m k v) k = some v := by
  cases hany : m.any (fun p => decide (p.1 = k)) with
  | false =>
    have hnone : m.find? (fun p => decide (p.1 = k)) = none :=
      List.find?_eq_none.mpr (fun p hp => List.any_eq_false.mp hany p hp)
    simp only [mapSet, mapGet, hany, Bool.false_eq_true, if_false]
    rw [List.find?_append, hnone]
    simp [List.find?]
  | true =>
    simp only [mapSet, mapGet, hany, if_true]
    rw [find?_map_upd k v m hany]
    rfl

theorem mapGet_mapSet_other (m : List (Str × MergeScreen)) (j k : Str) (v : MergeScreen)
    (hjk : j ≠ k) : mapGet (mapSet m j v) k = mapGet m k := by
  cases hany : m.any (fun p => decide (p.1 = j)) with
  | false =>
    simp only [mapSet, mapGet, hany, Bool.false_eq_true, if_false]
    rw [List.find?_append]
    have h1 : List.find? (fun p => decide (p.1 = k)) [(j, v)] = none := by
      simp [List.find?, hjk]
    rw [h1]
    cases m.find? (fun p => decide (p.1 = k)) <;> simp [Option.or]
  | true =>
    simp only [mapSet, mapGet, hany, if_true]
    rw [find?_map_upd_other j k v m hjk]

theorem mem_values_of_mapGet (m : List (Str × MergeScreen)) (k : Str) (v : MergeScreen)
    (h : mapGet m k = some v) : v ∈ m.map (fun p => p.2) := by
  unfold mapGet at h
  cases hf : m.find? (fun p => decide (p.1 = k)) with
  | none => rw [hf] at h; simp at h
  | some p =>
    rw [hf] at h
    have h2 : p.2 = v := by simpa using h
    have hp := List.mem_of_find?_eq_some hf
    exact h2 ▸ List.mem_map_of_mem _ hp

theorem insertLocal_get_of_not_mem (L : List MergeScreen) (m : List (Str × MergeScreen)) (k : Str)
    (h : ∀ s ∈ L, s.id ≠ k) : mapGet (insertLocal m L) k = mapGet m k := by
  induction L generalizing m with
  | nil => rfl
  | cons s L2 ih =>
    rw [insertLocal_cons]
    rw [ih _ (fun t ht => h t (by simp [ht]))]
    exact mapGet_mapSet_other m s.id k s (h s (by simp))

theorem insertRemote_get_of_not_mem (R : List MergeScreen) (m : List (Str × MergeScreen)) (k : Str)
    (h : ∀ r ∈ R, r.id ≠ k) : mapGet (insertRemote m R) k = mapGet m k := by
  induction R generalizing m with
  | nil => rfl
  | cons r R2 ih =>
    rw [insertRemote_cons]
    have hr : r.id ≠ k := h r (by simp)
    cases hg : mapGet m r.id with
    | none =>
      dsimp only
      rw [ih _ (fun t ht => h t (by simp [ht]))]
      exact mapGet_mapSet_other m r.id k r hr
    | some ls =>
      dsimp only
      by_cases hn : remoteIsNewer ls r = true
      · rw [if_pos hn]
        rw [ih _ (fun t ht => h t (by simp [ht]))]
        exact mapGet_mapSet_other m r.id k r hr
      · rw [if_neg hn]
        exact ih _ (fun t ht => h t (by simp [ht]))

theorem insertLocal_get_mem (L : List MergeScreen) (m : List (Str × MergeScreen)) (X : MergeScreen)
    (hX : X ∈ L) (hnd : (L.map (fun s => s.id)).Nodup) :
    mapGet (insertLocal m L) X.id = some X := by
  induction L generalizing m with
  | nil => simp at hX
  | cons s L2 ih =>
    rw [insertLocal_cons]
    simp only [List.map_cons, List.nodup_cons] at hnd
    rcases List.mem_cons.mp hX with rfl | hX2
    · have hnot : ∀ t ∈ L2, t.id ≠ X.id := by
        intro t ht he
        exact hnd.1 (he ▸ List.mem_map_of_mem _ ht)
      rw [insertLocal_get_of_not_mem _ _ _ hnot]
      exact mapGet_mapSet_same m X.id X
    · exact ih _ hX2 hnd.2

theorem insertRemote_get_resolved (R : List MergeScreen) (m : List (Str × MergeScreen))
    (X Y : MergeScreen) (hY : Y ∈ R) (hnd : (R.map (fun s => s.id)).Nodup)
    (hget : mapGet m Y.id = some X) :
    mapGet (insertRemote m R) Y.id = some (if remoteIsNewer X Y then Y else X) := by
  induction R generalizing m with
  | nil => simp at hY
  | cons r R2 ih =>
    rw [insertRemote_cons]
    simp only [List.map_cons, List.nodup_cons] at hnd
    rcases List.mem_cons.mp hY with rfl | hY2
    · rw [hget]
      dsimp only
      have hnot : ∀ t ∈ R2, t.id ≠ Y.id := by
        intro t ht he
        exact hnd.1 (he ▸ List.mem_map_of_mem _ ht)
      by_cases hn : remoteIsNewer X Y = true
      · rw [if_pos hn, if_pos hn]
        rw [insertRemote_get_of_not_mem _ _ _ hnot]
        exact mapGet_mapSet_same m Y.id Y
      · rw [if_neg hn, if_neg hn]
        rw [insertRemote_get_of_not_mem _ _ _ hnot]
        exact hget
    · have hr : r.id ≠ Y.id := by
        intro he
        exact hnd.1 (he ▸ List.mem_map_of_mem _ hY2)
      cases hg : mapGet m r.id with
      | none =>
        dsimp only
        exact ih _ hY2 hnd.2 (by rw [mapGet_mapSet_other m r.id Y.id r hr]; exact hget)
      | some ls =>
        dsimp only
        by_cases hn : remoteIsNewer ls r = true
        · rw [if_pos hn]
          exact ih _ hY2 hnd.2 (by rw [mapGet_mapSet_other m r.id Y.id r hr]; exact hget)
        · rw [if_neg hn]
          exact ih _ hY2 hnd.2 hget

/-- C1 counterexample: with local list `[xC1]`, remote list `[]` and
last-sync time `100`, the item `xC1` satisfies the claim's hypotheses
(`addedAt = 50 ≤ 100`, id absent from the remote list), yet
`mergeScreens` keeps it: the source merge takes no last-sync timestamp
and never drops a local item. -/
theorem c1_counterexample_old_local_item_not_dropped :
    xC1.addedAt = some 50 ∧ 50 ≤ 100 ∧
    xC1.id ∉ ([] : List MergeScreen).map (fun r => r.id) ∧
    xC1 ∈ mergeScreens [xC1] [] := by
  refine ⟨rfl, by decide, by simp, ?_⟩
  decide

/-- C1 (amended): an item present only locally is always kept by the
merge, whatever its `addedAt` and whatever the last-sync time: if `X` is
in the local list (whose ids are duplicate-free) and `X.id` does not
occur in the remote list, then `X` is in `mergeScreens L R`. -/
theorem c1_merge_keeps_local_only_items (L R : List MergeScreen) (X : MergeScreen)
    (hX : X ∈ L) (hnd : (L.map (fun s => s.id)).Nodup)
    (hR : X.id ∉ R.map (fun r => r.id)) :
    X ∈ mergeScreens L R := by
  have h1 : mapGet (insertLocal [] L) X.id = some X := insertLocal_get_mem L [] X hX hnd
  have hnot : ∀ r ∈ R, r.id ≠ X.id := fun r hr he => hR (he ▸ List.mem_map_of_mem _ hr)
  have h2 : mapGet (insertRemote (insertLocal [] L) R) X.id = some X := by
    rw [insertRemote_get_of_not_mem R _ _ hnot]
    exact h1
  exact mem_values_of_mapGet _ _ _ h2

/-- Witness for the amended C1 theorem at a concrete input. -/
theorem c1_merge_keeps_local_only_items_witness :
    xC1 ∈ [xC1] ∧ (([xC1].map (fun s => s.id)).Nodup) ∧
    xC1.id ∉ [yC1].map (fun r => r.id) ∧ xC1 ∈ mergeScreens [xC1] [yC1] :=
  ⟨by decide, by decide, by decide,
   c1_merge_keeps_local_only_items [xC1] [yC1] xC1 (by decide) (by decide) (by decide)⟩

/-- C2 counterexample: in the screen tracker, the sync triggered by a
local mutation is `syncWithGitHub`, a full pull-merge-push.  With the
in-memory collection empty after deleting `xC2` and the remote document
still holding `xC2`, the mutation-triggered sync does not leave the
collection unchanged: it re-adds the just-deleted item. -/
theorem c2_counterexample_mutation_sync_readds_deleted :
    screenMutationSyncApply [] [xC2] ≠ [] ∧ xC2 ∈ screenMutationSyncApply [] [xC2] := by
  decide

/-- C2 (amended): in the book tracker the mutation-triggered sync is
push-only: `saveToLocalStorage` writes the collection to the local
cache and calls `pushToGitHub`, which leaves the in-memory collection
(and the syncing flag) unchanged and at most rewrites the remote
document with the encoding of the current collection; it performs no
pull and no merge (the model takes no remote input at all).  In the
screen tracker the mutation-triggered sync is instead the full
pull-merge-push cycle (see the C2 counterexample). -/
theorem c2_book_mutation_sync_push_only (ok : Bool) (st : BookSyncState) :
    (saveToLocalStorageBook ok st).books = st.books ∧
    (saveToLocalStorageBook ok st).isSyncing = st.isSyncing ∧
    (saveToLocalStorageBook ok st).cache = some st.books ∧
    ((saveToLocalStorageBook ok st).gistDoc = st.gistDoc ∨
      (saveToLocalStorageBook ok st).gistDoc = some (booksToTSV st.books)) := by
  unfold saveToLocalStorageBook pushToGitHub
  by_cases h1 : jsTrim st.apiToken = [] ∨ jsTrim st.gistId = []
  · rw [if_pos h1]
    exact ⟨rfl, rfl, rfl, Or.inl rfl⟩
  · rw [if_neg h1]
    by_cases h2 : st.isSyncing = true
    · rw [if_pos h2]
      exact ⟨rfl, rfl, rfl, Or.inl rfl⟩
    · rw [if_neg h2]
      cases ok with
      | true => exact ⟨rfl, rfl, rfl, Or.inr rfl⟩
      | false => exact ⟨rfl, rfl, rfl, Or.inl rfl⟩

/-- C3: when the same id occurs in both lists (each duplicate-free) and
the two copies have distinct most-recent-activity timestamps, the merge
contains, verbatim, the copy whose timestamp is later. -/
theorem c3_merge_conflict_latest_copy_wins (L R : List MergeScreen) (X Y : MergeScreen)
    (hX : X ∈ L) (hY : Y ∈ R) (hid : X.id = Y.id)
    (hndL : (L.map (fun s => s.id)).Nodup) (hndR : (R.map (fun s => s.id)).Nodup)
    (a b : Nat) (ha : getLatestTimestamp X = some a) (hb : getLatestTimestamp Y = some b)
    (hne : a ≠ b) :
    (a < b → Y ∈ mergeScreens L R) ∧ (b < a → X ∈ mergeScreens L R) := by
  have h1 : mapGet (insertLocal [] L) Y.id = some X := by
    rw [← hid]
    exact insertLocal_get_mem L [] X hX hndL
  have h2 := insertRemote_get_resolved R (insertLocal [] L) X Y hY hndR h1
  constructor
  · intro hab
    have hn : remoteIsNewer X Y = true := by
      unfold remoteIsNewer
      rw [hb, ha]
      simp [hab]
    rw [if_pos hn] at h2
    exact mem_values_of_mapGet _ _ _ h2
  · intro hba
    have hn : ¬ remoteIsNewer X Y = true := by
      unfold remoteIsNewer
      rw [hb, ha]
      simp
      omega
    rw [if_neg hn] at h2
    exact mem_values_of_mapGet _ _ _ h2

/-- Witness for the C3 theorem at a concrete input. -/
theorem c3_merge_conflict_latest_copy_wins_witness :
    getLatestTimestamp xC3 = some 40 ∧ getLatestTimestamp yC3 = some 70 ∧
    yC3 ∈ mergeScreens [xC3] [yC3] :=
  ⟨by decide, by decide,
   (c3_merge_conflict_latest_copy_wins [xC3] [yC3] xC3 yC3 (by decide) (by decide) (by decide)
      (by decide) (by decide) 40 70 (by decide) (by decide) (by decide)).1 (by decide)⟩

/-- C7 counterexample: the book tracker derives the in-progress status
from a set `startedAt`, not from "episodic and a last-consumed marker"
(books have neither a category nor an episode marker): `bC7` is not
terminal and has `addedAt` set, so by the claimed computation its status
would be pending, but `getBookListStatus` returns the in-progress
status. -/
theorem c7_counterexample_book_reading_without_marker :
    truthy bC7.addedAt = true ∧ bC7.finishedAt = none ∧
    getBookListStatus bC7 = some BookStatus.reading ∧
    getBookListStatus bC7 ≠ some BookStatus.to_read := by
  refine ⟨by decide, rfl, by decide, by decide⟩

/-- C7 (amended): full characterization of both derived-status
functions.  For screens the claimed table holds verbatim (terminal when
`finishedAt` is truthy; in-progress when the item is a TV show with a
last-watched episode set and is not terminal; pending when `addedAt` is
truthy and neither applies; no status otherwise).  For books the
in-progress condition is instead a truthy `startedAt`. -/
theorem c7_status_derivation_tables (s : Screen) (b : Book) :
    (getScreenListStatus s = some ScreenStatus.watched ↔ truthy s.finishedAt = true) ∧
    (getScreenListStatus s = some ScreenStatus.watching ↔
      (truthy s.finishedAt = false ∧ s.type = ("tv").toList ∧ truthy s.lastWatchedEpisode = true)) ∧
    (getScreenListStatus s = some ScreenStatus.to_watch ↔
      (truthy s.finishedAt = false ∧ ¬(s.type = ("tv").toList ∧ truthy s.lastWatchedEpisode = true) ∧
        truthy s.addedAt = true)) ∧
    (getScreenListStatus s = none ↔
      (truthy s.finishedAt = false ∧ ¬(s.type = ("tv").toList ∧ truthy s.lastWatchedEpisode = true) ∧
        truthy s.addedAt = false)) ∧
    (getBookListStatus b = some BookStatus.read ↔ truthy b.finishedAt = true) ∧
    (getBookListStatus b = some BookStatus.reading ↔
      (truthy b.finishedAt = false ∧ truthy b.startedAt = true)) ∧
    (getBookListStatus b = some BookStatus.to_read ↔
      (truthy b.finishedAt = false ∧ truthy b.startedAt = false ∧ truthy b.addedAt = true)) ∧
    (getBookListStatus b = none ↔
      (truthy b.finishedAt = false ∧ truthy b.startedAt = false ∧ truthy b.addedAt = false)) := by
  unfold getScreenListStatus getBookListStatus
  by_cases ht : s.type = ['t', 'v'] <;>
    cases hf : truthy s.finishedAt <;>
    cases hl : truthy s.lastWatchedEpisode <;>
    cases ha : truthy s.addedAt <;>
    cases hbf : truthy b.finishedAt <;>
    cases hbs : truthy b.startedAt <;>
    cases hba : truthy b.addedAt <;>
    simp [ht, hf, hl, ha, hbf, hbs, hba]

/-- C8 counterexample: the screen tracker's `setListTimestamps` only
fills a missing `addedAt`; it never compares an existing `addedAt`
against the new completion time, so marking `sC8` watched at time
`2024-01-01` leaves `addedAt = 2025-06-01 > finishedAt` - the violated
ordering is not repaired. -/
theorem c8_counterexample_screen_watched_not_repaired :
    (setListTimestamps sC8 (("watched").toList) nowC8).addedAt = some (("2025-06-01").toList) ∧
    (setListTimestamps sC8 (("watched").toList) nowC8).finishedAt = some nowC8 ∧
    strLt nowC8 (("2025-06-01").toList) = true := by
  decide

/-- C8 (amended): after any of the three timestamp-setting mutations,
the book tracker's `setListTimestamps` guarantees
`addedAt ≤ startedAt ≤ finishedAt` (whenever both sides are set), with
violated orderings repaired by copying the later timestamp backward and
the mutation never rejected; the screen tracker's `setListTimestamps`
guarantees `addedAt ≤ finishedAt` only under the additional assumption
that the pre-existing `addedAt` does not exceed the mutation time. -/
theorem c8_monotonic_repair_amended :
    (∀ (b : Book) (st now : Str), (st = sToRead ∨ st = sReading ∨ st = sRead) →
      (∀ av sv, (setListTimestampsBook b st now).addedAt = some av →
        (setListTimestampsBook b st now).startedAt = some sv → strLt sv av = false) ∧
      (∀ sv fv, (setListTimestampsBook b st now).startedAt = some sv →
        (setListTimestampsBook b st now).finishedAt = some fv → strLt fv sv = false) ∧
      (∀ av fv, (setListTimestampsBook b st now).addedAt = some av →
        (setListTimestampsBook b st now).finishedAt = some fv → strLt fv av = false)) ∧
    (∀ (s : Screen) (st now : Str),
      (st = ("to_watch").toList ∨ st = ("watching").toList ∨ st = ("watched").toList) →
      (∀ av, s.addedAt = some av → strLt now av = false) →
      (∀ av fv, (setListTimestamps s st now).addedAt = some av →
        (setListTimestamps s st now).finishedAt = some fv → strLt fv av = false)) := by
  constructor
  · intro b st now hst
    rcases hst with rfl | rfl | rfl
    · dsimp only [setListTimestampsBook]
      rw [if_pos rfl]
      exact ⟨fun av sv h1 h2 => by simp at h2, fun sv fv h1 h2 => by simp at h2,
             fun av fv h1 h2 => by simp at h2⟩
    · dsimp only [setListTimestampsBook]
      rw [if_neg (by decide), if_pos rfl]
      by_cases hc : (¬ truthy b.addedAt = true ∨ strLt now (b.addedAt.getD []) = true)
      · rw [if_pos hc]
        refine ⟨fun av sv h1 h2 => ?_, fun sv fv h1 h2 => ?_, fun av fv h1 h2 => ?_⟩
        · simp at h1 h2
          subst h1
          subst h2
          exact strLt_irrefl now
        · simp at h2
        · simp at h2
      · rw [if_neg hc]
        push_neg at hc
        obtain ⟨hc1, hc2⟩ := hc
        have hc3 : strLt now (b.addedAt.getD []) = false := by
          cases h : strLt now (b.addedAt.getD []) with
          | false => rfl
          | true => exact absurd h hc2
        refine ⟨fun av sv h1 h2 => ?_, fun sv fv h1 h2 => ?_, fun av fv h1 h2 => ?_⟩
        · simp at h1 h2
          subst h2
          rw [h1] at hc3
          simpa using hc3
        · simp at h2
        · simp at h2
    · dsimp only [setListTimestampsBook]
      rw [if_neg (by decide), if_neg (by decide), if_pos rfl]
      by_cases hs : (¬ truthy b.startedAt = true ∨ strLt now (b.startedAt.getD []) = true)
      · rw [if_pos hs]
        simp only [Option.getD_some]
        by_cases ha : (¬ truthy b.addedAt = true ∨ strLt now (b.addedAt.getD []) = true)
        · rw [if_pos ha]
          refine ⟨fun av sv h1 h2 => ?_, fun sv fv h1 h2 => ?_, fun av fv h1 h2 => ?_⟩
          · simp at h1 h2
            subst h1; subst h2
            exact strLt_irrefl now
          · simp at h1 h2
            subst h1; subst h2
            exact strLt_irrefl now
          · simp at h1 h2
            subst h1; subst h2
            exact strLt_irrefl now
        · rw [if_neg ha]
          push_neg at ha
          obtain ⟨ha1, ha2⟩ := ha
          have ha3 : strLt now (b.addedAt.getD []) = false := by
            cases h : strLt now (b.addedAt.getD []) with
            | false => rfl
            | true => exact absurd h ha2
          refine ⟨fun av sv h1 h2 => ?_, fun sv fv h1 h2 => ?_, fun av fv h1 h2 => ?_⟩
          · simp at h1 h2
            subst h2
            rw [h1] at ha3
            simpa using ha3
          · simp at h1 h2
            subst h1; subst h2
            exact strLt_irrefl now
          · simp at h1 h2
            subst h2
            rw [h1] at ha3
            simpa using ha3
      · rw [if_neg hs]
        push_neg at hs
        obtain ⟨hs1, hs2⟩ := hs
        have hs3 : strLt now (b.startedAt.getD []) = false := by
          cases h : strLt now (b.startedAt.getD []) with
          | false => rfl
          | true => exact absurd h hs2
        cases hbst : b.startedAt with
        | none => rw [hbst] at hs1; simp [truthy] at hs1
        | some s0 =>
          rw [hbst] at hs3
          simp only [Option.getD_some] at hs3
          simp only [Option.getD_some]
          by_cases ha : (¬ truthy b.addedAt = true ∨ strLt s0 (b.addedAt.getD []) = true)
          · rw [if_pos ha]
            refine ⟨fun av sv h1 h2 => ?_, fun sv fv h1 h2 => ?_, fun av fv h1 h2 => ?_⟩
            · simp at h1 h2
              subst h1; subst h2
              exact strLt_irrefl s0
            · simp at h1 h2
              subst h1; subst h2
              exact hs3
            · simp at h1 h2
              subst h1; subst h2
              exact hs3
          · rw [if_neg ha]
            push_neg at ha
            obtain ⟨ha1, ha2⟩ := ha
            have ha3 : strLt s0 (b.addedAt.getD []) = false := by
              cases h : strLt s0 (b.addedAt.getD []) with
              | false => rfl
              | true => exact absurd h ha2
            refine ⟨fun av sv h1 h2 => ?_, fun sv fv h1 h2 => ?_, fun av fv h1 h2 => ?_⟩
            · simp at h1 h2
              subst h2
              rw [h1] at ha3
              simpa using ha3
            · simp at h1 h2
              subst h1; subst h2
              exact hs3
            · simp at h1 h2
              subst h2
              rw [h1] at ha3
              simp only [Option.getD_some] at ha3
              exact strLe_trans ha3 hs3
  · intro s st now hst hprior
    rcases hst with rfl | rfl | rfl
    · dsimp only [setListTimestamps]
      rw [if_pos rfl]
      intro av fv h1 h2
      simp at h2
    · dsimp only [setListTimestamps]
      rw [if_neg (by decide), if_pos rfl]
      by_cases hc : truthy s.addedAt = true
      · rw [if_pos hc]
        intro av fv h1 h2
        simp at h2
      · rw [if_neg hc]
        intro av fv h1 h2
        simp at h2
    · dsimp only [setListTimestamps]
      rw [if_neg (by decide), if_neg (by decide), if_pos rfl]
      by_cases hc : truthy s.addedAt = true
      · rw [if_pos hc]
        intro av fv h1 h2
        simp at h1 h2
        subst h2
        exact hprior av h1
      · rw [if_neg hc]
        intro av fv h1 h2
        simp at h1 h2
        subst h1
        subst h2
        exact strLt_irrefl now

/-- Witness for the amended C8 theorem at a concrete input: marking
`bC8` read at time `2021` yields `addedAt = 2020 ≤ finishedAt = 2021`. -/
theorem c8_monotonic_repair_amended_witness :
    strLt (("2021").toList) (("2020").toList) = false :=
  (c8_monotonic_repair_amended.1 bC8 sRead (("2021").toList) (Or.inr (Or.inr rfl))).2.2
    (("2020").toList) (("2021").toList) (by decide) (by decide)

theorem mem_replaceChar (a b : Char) (s : Str) (c : Char) (h : c ∈ replaceChar a b s) :
    c = b ∨ (c ∈ s ∧ c ≠ a) := by
  unfold replaceChar at h
  obtain ⟨d, hd, hdc⟩ := List.mem_map.mp h
  by_cases hda : d = a
  · left
    rw [← hdc, if_pos hda]
  · right
    rw [← hdc, if_neg hda]
    exact ⟨hd, hda⟩

theorem mem_removeChar (a : Char) (s : Str) (c : Char) (h : c ∈ removeChar a s) :
    c ∈ s ∧ c ≠ a := by
  unfold removeChar at h
  have h2 := List.mem_filter.mp h
  exact ⟨h2.1, by simpa using h2.2⟩

theorem escapeField_no_illegal (o : Option Str) :
    ∀ c ∈ escapeField o, c ≠ '\t' ∧ c ≠ '\n' ∧ c ≠ '\r' ∧ c ≠ '"' := by
  intro c hc
  cases o with
  | none => simp [escapeField] at hc
  | some s =>
    simp only [escapeField] at hc
    by_cases hs : s = []
    · rw [if_pos hs] at hc
      simp at hc
    · rw [if_neg hs] at hc
      rcases mem_replaceChar _ _ _ _ hc with rfl | ⟨hc2, hq⟩
      · exact ⟨by decide, by decide, by decide, by decide⟩
      · obtain ⟨hc3, hr⟩ := mem_removeChar _ _ _ hc2
        rcases mem_replaceChar _ _ _ _ hc3 with rfl | ⟨hc4, hn⟩
        · exact ⟨by decide, by decide, by decide, hq⟩
        · rcases mem_replaceChar _ _ _ _ hc4 with rfl | ⟨hc5, ht⟩
          · exact ⟨by decide, by decide, by decide, hq⟩
          · exact ⟨ht, hn, hr, hq⟩

/-- C5 counterexample: `screensToTSV` applies no sanitization at all -
the title field of the emitted row for `sC5` still contains a raw tab,
and the emitted row consequently splits into 11 parts instead of 10. -/
theorem c5_counterexample_screen_encode_unsanitized :
    '\t' ∈ (screenRowFields sC5).getD 6 [] ∧
    (splitOnChar '\t' (joinChar '\t' (screenRowFields sC5))).length = 11 := by
  decide

/-- C5 (amended): only the book tracker's encoder sanitizes, and only
its three text-bearing fields: in every row emitted by `booksToTSV`, the
title, author and description fields (positions 5, 6 and 9) contain no
raw tab, newline, carriage-return or double-quote character (tab and
newline are replaced with a space, a carriage return is removed rather
than replaced, and a double quote becomes a single quote); the remaining
fields, and every field of `screensToTSV`, are emitted raw. -/
theorem c5_book_text_fields_sanitized (b : Book) :
    (∀ c ∈ (bookRowFields b).getD 5 [], c ≠ '\t' ∧ c ≠ '\n' ∧ c ≠ '\r' ∧ c ≠ '"') ∧
    (∀ c ∈ (bookRowFields b).getD 6 [], c ≠ '\t' ∧ c ≠ '\n' ∧ c ≠ '\r' ∧ c ≠ '"') ∧
    (∀ c ∈ (bookRowFields b).getD 9 [], c ≠ '\t' ∧ c ≠ '\n' ∧ c ≠ '\r' ∧ c ≠ '"') := by
  have h5 : (bookRowFields b).getD 5 [] = escapeField (some b.title) := rfl
  have h6 : (bookRowFields b).getD 6 [] = escapeField (some b.author) := rfl
  have h9 : (bookRowFields b).getD 9 [] = escapeField b.description := rfl
  exact ⟨h5 ▸ escapeField_no_illegal (some b.title),
         h6 ▸ escapeField_no_illegal (some b.author),
         h9 ▸ escapeField_no_illegal b.description⟩

theorem tsvToBooks_eq (oracle : Str → Option VolumeInfo) (tsv : Str) :
    tsvToBooks oracle tsv =
      (((bookTsvDataLines tsv).filterMap
          (parseBookRow oracle (legacyHeader (bookTsvHeader tsv)) (bookTsvHeader tsv))).map
            (fun p => p.1),
       headerWrongOrder ((bookTsvHeader tsv).map jsTrim) || legacyHeader (bookTsvHeader tsv) ||
         ((bookTsvDataLines tsv).filterMap
            (parseBookRow oracle (legacyHeader (bookTsvHeader tsv)) (bookTsvHeader tsv))).any
              (fun p => p.2)) := by
  unfold tsvToBooks bookTsvHeader bookTsvDataLines tsvLines
  cases hl : splitOnChar '\n' (jsTrim tsv) with
  | nil => exact absurd hl (splitOnChar_ne_nil _ _)
  | cons h0 ds => rfl

theorem buildBook_isbn (oracle : Str → Option VolumeInfo)
    (isbn title author year description coverUrl : Str)
    (tags : List Str) (addedAt startedAt finishedAt : Str) :
    (buildBook oracle isbn title author year description coverUrl tags addedAt startedAt finishedAt).isbn = isbn := by
  unfold buildBook
  by_cases h : ¬ (title = [] ∨ author = [] ∨ year = [] ∨ description = [] ∨ coverUrl = [])
  · rw [if_pos h]
  · rw [if_neg h]
    cases oracle isbn <;> rfl

theorem parseBookRow_none_iff (oracle : Str → Option VolumeInfo) (mig : Bool)
    (header : List Str) (ln : Str) :
    parseBookRow oracle mig header ln = none ↔
      getValue header (splitOnChar '\t' ln) sIsbn = [] := by
  by_cases h : getValue header (splitOnChar '\t' ln) sIsbn = []
  · simp only [parseBookRow]
    rw [if_pos h]
    simp [h]
  · simp only [parseBookRow]
    rw [if_neg h]
    simp [h]

theorem parseBookRow_some_isbn (oracle : Str → Option VolumeInfo) (mig : Bool)
    (header : List Str) (ln : Str) (bk : Book) (ch : Bool)
    (h : parseBookRow oracle mig header ln = some (bk, ch)) :
    bk.isbn = getValue header (splitOnChar '\t' ln) sIsbn ∧
    getValue header (splitOnChar '\t' ln) sIsbn ≠ [] := by
  by_cases hi : getValue header (splitOnChar '\t' ln) sIsbn = []
  · rw [(parseBookRow_none_iff oracle mig header ln).mpr hi] at h
    exact absurd h (by simp)
  · refine ⟨?_, hi⟩
    simp only [parseBookRow] at h
    rw [if_neg hi] at h
    injection h with h3
    have h4 := congrArg Prod.fst h3
    dsimp at h4
    rw [← h4, buildBook_isbn]

theorem replaceChar_quote_eq_self_iff (s : Str) :
    replaceChar '"' apostrophe s = s ↔ '"' ∉ s := by
  induction s with
  | nil => simp [replaceChar]
  | cons x xs ih =>
    unfold replaceChar at ih ⊢
    rw [List.map_cons]
    by_cases hx : x = '"'
    · subst hx
      rw [if_pos rfl]
      constructor
      · intro h
        simp [apostrophe] at h
      · intro h
        exact absurd (by simp : ('"' : Char) ∈ '"' :: xs) h
    · rw [if_neg hx]
      simp only [List.cons.injEq, true_and]
      rw [ih]
      simp [hx, Ne.symm hx]

theorem sanitizeField_changed_iff (s : Str) : (¬ sanitizeField s = s) ↔ '"' ∈ s := by
  unfold sanitizeField
  by_cases hs : s = []
  · rw [if_pos hs]
    subst hs
    simp
  · rw [if_neg hs]
    rw [replaceChar_quote_eq_self_iff]
    exact not_not

theorem parseBookRow_some_flag (oracle : Str → Option VolumeInfo) (mig : Bool)
    (header : List Str) (ln : Str) (bk : Book) (ch : Bool)
    (h : parseBookRow oracle mig header ln = some (bk, ch)) :
    ch = true ↔
      ('"' ∈ getValue header (splitOnChar '\t' ln) sTitle ∨
       '"' ∈ getValue header (splitOnChar '\t' ln) sAuthor ∨
       '"' ∈ getValue header (splitOnChar '\t' ln) sDescription) := by
  by_cases hi : getValue header (splitOnChar '\t' ln) sIsbn = []
  · rw [(parseBookRow_none_iff oracle mig header ln).mpr hi] at h
    exact absurd h (by simp)
  · simp only [parseBookRow] at h
    rw [if_neg hi] at h
    injection h with h3
    have h4 := congrArg Prod.snd h3
    dsimp at h4
    rw [← h4]
    simp only [Bool.or_eq_true, decide_eq_true_eq, ne_eq]
    rw [sanitizeField_changed_iff, sanitizeField_changed_iff, sanitizeField_changed_iff]
    tauto

theorem filterMap_parse_any_iff (oracle : Str → Option VolumeInfo) (mig : Bool)
    (header : List Str) (lns : List Str) :
    ((lns.filterMap (parseBookRow oracle mig header)).any (fun p => p.2)) = true ↔
      ∃ ln ∈ lns,
        (getValue header (splitOnChar '\t' ln) sIsbn ≠ [] ∧
          ('"' ∈ getValue header (splitOnChar '\t' ln) sTitle ∨
           '"' ∈ getValue header (splitOnChar '\t' ln) sAuthor ∨
           '"' ∈ getValue header (splitOnChar '\t' ln) sDescription)) := by
  rw [List.any_eq_true]
  constructor
  · rintro ⟨p, hp, hflag⟩
    obtain ⟨ln, hln, hparse⟩ := List.mem_filterMap.mp hp
    obtain ⟨bk, ch⟩ := p
    refine ⟨ln, hln, (parseBookRow_some_isbn _ _ _ _ _ _ hparse).2, ?_⟩
    exact (parseBookRow_some_flag _ _ _ _ _ _ hparse).mp hflag
  · rintro ⟨ln, hln, hisbn, hq⟩
    have hne : parseBookRow oracle mig header ln ≠ none := by
      rw [Ne, parseBookRow_none_iff]
      exact hisbn
    obtain ⟨p, hp⟩ := Option.ne_none_iff_exists'.mp hne
    obtain ⟨bk, ch⟩ := p
    refine ⟨(bk, ch), List.mem_filterMap.mpr ⟨ln, hln, hp⟩, ?_⟩
    exact (parseBookRow_some_flag _ _ _ _ _ _ hp).mpr hq

theorem filterMap_parse_length (oracle : Str → Option VolumeInfo) (mig : Bool)
    (header : List Str) (lns : List Str) :
    (lns.filterMap (parseBookRow oracle mig header)).length =
      lns.countP (fun ln => !(decide (getValue header (splitOnChar '\t' ln) sIsbn = []))) := by
  induction lns with
  | nil => rfl
  | cons ln rest ih =>
    rw [List.filterMap_cons, List.countP_cons]
    by_cases hi : getValue header (splitOnChar '\t' ln) sIsbn = []
    · rw [(parseBookRow_none_iff oracle mig header ln).mpr hi]
      simp [hi, ih]
    · have hne : parseBookRow oracle mig header ln ≠ none := by
        rw [Ne, parseBookRow_none_iff]
        exact hi
      obtain ⟨p, hp⟩ := Option.ne_none_iff_exists'.mp hne
      rw [hp]
      simp [hi, ih]

/-- C6: the needs-rewrite flag returned by the book decode is true
exactly when the source header's (trimmed) column order differs from the
canonical order, or the legacy schema is detected (so migration is
applied), or sanitization changed some parsed field value - the latter
holding exactly when some ISBN-bearing data row has a double quote in
its title, author or description cell. -/
theorem c6_needs_rewrite_flag_iff (oracle : Str → Option VolumeInfo) (tsv : Str) :
    (tsvToBooks oracle tsv).2 = true ↔
      (headerWrongOrder ((bookTsvHeader tsv).map jsTrim) = true ∨
       legacyHeader (bookTsvHeader tsv) = true ∨
       ∃ ln ∈ bookTsvDataLines tsv,
         rowIsbn (bookTsvHeader tsv) ln ≠ [] ∧
         ('"' ∈ getValue (bookTsvHeader tsv) (splitOnChar '\t' ln) sTitle ∨
          '"' ∈ getValue (bookTsvHeader tsv) (splitOnChar '\t' ln) sAuthor ∨
          '"' ∈ getValue (bookTsvHeader tsv) (splitOnChar '\t' ln) sDescription)) := by
  rw [tsvToBooks_eq]
  dsimp only
  rw [Bool.or_eq_true, Bool.or_eq_true, filterMap_parse_any_iff]
  unfold rowIsbn
  rw [or_assoc]

theorem tsvToScreensAux_length (nowMs : Nat) (i : Nat) (lns : List Str) :
    (tsvToScreensAux nowMs i lns).length =
      lns.countP (fun ln =>
        !(decide (jsTrim ln = [])) && !(decide ((splitOnChar '\t' (jsTrim ln)).length < 10))) := by
  induction lns generalizing i with
  | nil => rfl
  | cons ln rest ih =>
    rw [List.countP_cons]
    by_cases h1 : jsTrim ln = []
    · simp only [tsvToScreensAux]
      rw [if_pos h1]
      simp [h1, ih]
    · simp only [tsvToScreensAux]
      rw [if_neg h1]
      by_cases h2 : (splitOnChar '\t' (jsTrim ln)).length < 10
      · rw [if_pos h2]
        simp [h1, h2, ih]
      · rw [if_neg h2]
        simp [h1, h2, ih]

/-- C9 (amended): neither decoder can fail - each returns a list for
every input.  In the book decode, the ISBN is the one required field:
every decoded book carries the nonempty ISBN of its row, and the number
of decoded books is exactly the number of data rows whose ISBN cell is
nonempty (so an ISBN-less or unparsable row is skipped without aborting
the rest).  In the screen decode, rows are skipped exactly when blank or
of arity below 10 after trimming - the identifying key is NOT required:
a 10-field row with an empty tmdbID is kept under a generated manual id
(see the C9 counterexample). -/
theorem c9_decode_tolerance (oracle : Str → Option VolumeInfo) (tsv tsv2 : Str) (nowMs : Nat) :
    (∀ bk ∈ (tsvToBooks oracle tsv).1, bk.isbn ≠ []) ∧
    (tsvToBooks oracle tsv).1.length =
      (bookTsvDataLines tsv).countP
        (fun ln => !(decide (rowIsbn (bookTsvHeader tsv) ln = []))) ∧
    (tsvToScreens nowMs tsv2).length =
      ((splitOnChar '\n' tsv2).drop 1).countP
        (fun ln =>
          !(decide (jsTrim ln = [])) && !(decide ((splitOnChar '\t' (jsTrim ln)).length < 10))) := by
  refine ⟨?_, ?_, ?_⟩
  · intro bk hbk
    rw [tsvToBooks_eq] at hbk
    dsimp only at hbk
    obtain ⟨p, hp, hbk2⟩ := List.mem_map.mp hbk
    obtain ⟨bk2, ch⟩ := p
    obtain ⟨ln, hln, hparse⟩ := List.mem_filterMap.mp hp
    have h5 := parseBookRow_some_isbn _ _ _ _ _ _ hparse
    dsimp only at hbk2
    rw [← hbk2, h5.1]
    exact h5.2
  · rw [tsvToBooks_eq]
    dsimp only
    rw [List.length_map, filterMap_parse_length]
    unfold rowIsbn
    rfl
  · unfold tsvToScreens
    by_cases hlen : (splitOnChar '\n' tsv2).length < 2
    · rw [if_pos hlen]
      have hdrop : (splitOnChar '\n' tsv2).drop 1 = [] := by
        cases hl : splitOnChar '\n' tsv2 with
        | nil => rfl
        | cons a t =>
          cases t with
          | nil => rfl
          | cons b t2 =>
            rw [hl] at hlen
            simp at hlen
            exact absurd hlen (by omega)
      rw [hdrop]
      rfl
    · rw [if_neg hlen]
      exact tsvToScreensAux_length nowMs 1 _

/-- C9 counterexample: the screen decode does not exclude a row lacking
the external identifying key - the keyless row of `tsvC9` is decoded
into a screen (with empty `tmdbId` and a generated manual id) rather
than being dropped. -/
theorem c9_counterexample_keyless_screen_row_kept :
    tsvToScreens 0 tsvC9 = [sC9r] ∧ sC9r.tmdbId = [] := by
  decide

theorem tsvToBooks_mem_isbn (oracle : Str → Option VolumeInfo) (tsv : Str) (bk : Book)
    (h : bk ∈ (tsvToBooks oracle tsv).1) :
    bk.isbn ∈ (bookTsvDataLines tsv).map (fun ln => rowIsbn (bookTsvHeader tsv) ln) := by
  rw [tsvToBooks_eq] at h
  dsimp only at h
  obtain ⟨p, hp, hbk2⟩ := List.mem_map.mp h
  obtain ⟨bk2, ch⟩ := p
  obtain ⟨ln, hln, hparse⟩ := List.mem_filterMap.mp hp
  have h5 := parseBookRow_some_isbn _ _ _ _ _ _ hparse
  dsimp only at hbk2
  rw [← hbk2, h5.1]
  exact List.mem_map_of_mem _ hln

/-- C10: on the successful-pull path of the book tracker's full sync
(token and gist id configured, no sync in flight, fetch returns a
`books.tsv`), the in-memory collection and the local cache are replaced
exactly by the list decoded from the remote document, so any book whose
ISBN does not occur in a data row of the remote document - regardless
of its `addedAt` - is absent afterwards; and the remote document is
either left untouched or rewritten with the encoding of the decoded
(remote-derived) list: the `saveToLocalStorage` performed during the
sync does not push the dropped local books back, because `isSyncing` is
set while `pushToGitHub` is invoked. -/
theorem c10_full_reconciliation_replaces_collection (oracle : Str → Option VolumeInfo)
    (tsv : Str) (createOk updOk : Bool) (nid : Str) (now : Nat) (st : BookSyncState)
    (h1 : st.isSyncing = false) (h2 : jsTrim st.apiToken ≠ []) (h3 : jsTrim st.gistId ≠ []) :
    (syncWithGitHubBook oracle (some (some tsv)) createOk updOk nid now st).books =
        (tsvToBooks oracle tsv).1 ∧
    (syncWithGitHubBook oracle (some (some tsv)) createOk updOk nid now st).cache =
        some ((tsvToBooks oracle tsv).1) ∧
    (∀ X ∈ st.books,
        X.isbn ∉ (bookTsvDataLines tsv).map (fun ln => rowIsbn (bookTsvHeader tsv) ln) →
        X ∉ (syncWithGitHubBook oracle (some (some tsv)) createOk updOk nid now st).books) ∧
    ((syncWithGitHubBook oracle (some (some tsv)) createOk updOk nid now st).gistDoc = st.gistDoc ∨
     (syncWithGitHubBook oracle (some (some tsv)) createOk updOk nid now st).gistDoc =
        some (booksToTSV ((tsvToBooks oracle tsv).1))) := by
  have hbooks : ∀ bk ∈ (tsvToBooks oracle tsv).1,
      bk.isbn ∈ (bookTsvDataLines tsv).map (fun ln => rowIsbn (bookTsvHeader tsv) ln) :=
    fun bk hbk => tsvToBooks_mem_isbn oracle tsv bk hbk
  unfold syncWithGitHubBook saveToLocalStorageBook pushToGitHub
  rw [if_neg (by simp [h1])]
  rw [if_neg h2]
  rw [if_neg h3]
  dsimp only
  rw [if_neg (not_or.mpr ⟨h2, h3⟩)]
  rw [if_pos rfl]
  by_cases hres : (tsvToBooks oracle tsv).2 = true
  · rw [if_pos hres]
    cases updOk with
    | true =>
      rw [if_pos rfl]
      refine ⟨rfl, rfl, ?_, Or.inr rfl⟩
      intro X hX hnotin hmem
      exact hnotin (hbooks X hmem)
    | false =>
      rw [if_neg (by simp)]
      refine ⟨rfl, rfl, ?_, Or.inl rfl⟩
      intro X hX hnotin hmem
      exact hnotin (hbooks X hmem)
  · rw [if_neg hres]
    refine ⟨rfl, rfl, ?_, Or.inl rfl⟩
    intro X hX hnotin hmem
    exact hnotin (hbooks X hmem)

/-- Witness for the C10 theorem at a concrete input: after the pull,
the local-only book `xC10` is gone from the collection. -/
theorem c10_full_reconciliation_witness :
    xC10 ∉ (syncWithGitHubBook (fun _ => none) (some (some tsvC10)) true true
      (("g2").toList) 5 stC10).books :=
  (c10_full_reconciliation_replaces_collection (fun _ => none) tsvC10 true true
      (("g2").toList) 5 stC10 rfl (by decide) (by decide)).2.2.1 xC10 (by decide) (by decide)

theorem getLastD_irrel {α : Type} (l : List α) (d1 d2 : α) (h : l ≠ []) :
    l.getLastD d1 = l.getLastD d2 := by
  cases l with
  | nil => exact absurd rfl h
  | cons x xs => rw [List.getLastD_cons, List.getLastD_cons]

theorem getLastD_append (l1 l2 : Str) (d : Char) (h : l2 ≠ []) :
    (l1 ++ l2).getLastD d = l2.getLastD d := by
  induction l1 generalizing d with
  | nil => rfl
  | cons x xs ih =>
    rw [List.cons_append, List.getLastD_cons, ih x]
    exact getLastD_irrel l2 x d h

theorem headD_append (l1 l2 : Str) (d : Char) (h : l1 ≠ []) :
    (l1 ++ l2).headD d = l1.headD d := by
  cases l1 with
  | nil => exact absurd rfl h
  | cons x xs => rfl

theorem joinChar_getLastD (c : Char) (fs : List Str) (d : Char) (hne : fs ≠ [])
    (hl : fs.getLastD [] ≠ []) :
    (joinChar c fs).getLastD d = (fs.getLastD []).getLastD d := by
  induction fs generalizing d with
  | nil => exact absurd rfl hne
  | cons f rest ih =>
    cases rest with
    | nil => rfl
    | cons g rest2 =>
      have h3 : (f :: g :: rest2).getLastD ([] : Str) = (g :: rest2).getLastD [] := by
        rw [List.getLastD_cons]
        exact getLastD_irrel _ f [] (by simp)
      have hl2 : (g :: rest2).getLastD ([] : Str) ≠ [] := by
        rw [← h3]
        exact hl
      simp only [joinChar]
      rw [getLastD_append _ _ _ (by simp)]
      rw [List.getLastD_cons]
      rw [ih c (by simp) hl2]
      rw [h3]
      exact getLastD_irrel _ c d hl2

theorem jsTrim_eq_of_ends (s : Str) (hne : s ≠ [])
    (hh : isJsWs (s.headD ' ') = false) (hl : isJsWs (s.getLastD ' ') = false) :
    jsTrim s = s := by
  cases s with
  | nil => rfl
  | cons x xs =>
    unfold jsTrim
    rw [dropWhile_eq_self_of_head (by simpa using hh)]
    cases hrev : (x :: xs).reverse with
    | nil => exact absurd (congrArg List.length hrev) (by simp)
    | cons y ys =>
      have hgl : (x :: xs).getLastD ' ' = y := by
        have h1 := List.head?_reverse (x :: xs)
        rw [hrev] at h1
        rw [List.getLastD_eq_getLast?, ← h1]
        rfl
      rw [hgl] at hl
      rw [dropWhile_eq_self_of_head hl, ← hrev, List.reverse_reverse]

theorem tsvToScreensAux_cons_safe (nowMs i : Nat) (s : Screen) (rest : List Str)
    (h : roundTripSafe s) :
    tsvToScreensAux nowMs i (joinChar '\t' (screenRowFields s) :: rest) =
      s :: tsvToScreensAux nowMs (i + 1) rest := by
  obtain ⟨h1, h2, h3, h4, h5, h6, h7, h8, h9, h10, h11, h12⟩ := h
  obtain ⟨a, ha⟩ := Option.ne_none_iff_exists'.mp h7
  obtain ⟨f, hf⟩ := Option.ne_none_iff_exists'.mp h10
  have hfieldsne : screenRowFields s ≠ [] := by unfold screenRowFields; simp
  have hnotab : ∀ fld ∈ screenRowFields s, '\t' ∉ fld := fun fld hfld => (h4 fld hfld).1
  have hfl : (screenRowFields s).getLastD ([] : Str) = s.overview := rfl
  have hshape : joinChar '\t' (screenRowFields s) =
      (s.addedAt.getD []) ++ '\t' :: joinChar '\t' ((screenRowFields s).tail) := rfl
  have hrowhead : isJsWs ((joinChar '\t' (screenRowFields s)).headD ' ') = false := by
    rw [hshape, headD_append _ _ ' ' h8]
    exact h9
  have hrowne : joinChar '\t' (screenRowFields s) ≠ [] := by
    rw [hshape]
    cases hc : s.addedAt.getD [] with
    | nil => exact absurd hc h8
    | cons u us => simp
  have hrowlast : isJsWs ((joinChar '\t' (screenRowFields s)).getLastD ' ') = false := by
    rw [joinChar_getLastD '\t' _ ' ' hfieldsne (by rw [hfl]; exact h11), hfl]
    exact h12
  have htrim : jsTrim (joinChar '\t' (screenRowFields s)) = joinChar '\t' (screenRowFields s) :=
    jsTrim_eq_of_ends _ hrowne hrowhead hrowlast
  have hsplit : splitOnChar '\t' (joinChar '\t' (screenRowFields s)) = screenRowFields s :=
    splitOnChar_joinChar '\t' _ hfieldsne hnotab
  have hid : (screenRowFields s).getD 2 [] = s.tmdbId := rfl
  have htype : (if (screenRowFields s).getD 5 [] = ("show").toList then ("tv").toList
      else (screenRowFields s).getD 5 []) = s.type := by
    have hg5 : (screenRowFields s).getD 5 [] =
        (if s.type = ("tv").toList then ("show").toList else s.type) := rfl
    rw [hg5]
    by_cases hty : s.type = ("tv").toList
    · rw [if_pos hty, if_pos rfl, hty]
    · rw [if_neg hty, if_neg h2]
  have htags : (if (screenRowFields s).getD 4 [] ≠ [] then
      (splitOnChar ',' ((screenRowFields s).getD 4 [])).filter (fun t => t ≠ []) else []) = s.tags := by
    have hg4 : (screenRowFields s).getD 4 [] = joinChar ',' s.tags := rfl
    rw [hg4]
    cases hts : s.tags with
    | nil => rw [if_neg (by simp [joinChar])]
    | cons t ts =>
      have htne : ∀ u ∈ t :: ts, u ≠ [] := fun u hu => (h5 u (hts ▸ hu)).1
      have hcomma : ∀ u ∈ t :: ts, ',' ∉ u := fun u hu => (h5 u (hts ▸ hu)).2
      have hjne : joinChar ',' (t :: ts) ≠ [] := by
        cases ts with
        | nil => exact htne t (by simp)
        | cons t2 ts2 =>
          cases hct : t with
          | nil => exact absurd hct (htne t (by simp))
          | cons u us => simp [joinChar]
      rw [if_pos hjne]
      rw [splitOnChar_joinChar ',' _ (by simp) hcomma]
      rw [List.filter_eq_self.mpr (fun u hu => by simpa using htne u hu)]
  have hlwe : (if (screenRowFields s).getD 3 [] = [] then none
      else some ((screenRowFields s).getD 3 [])) = s.lastWatchedEpisode := by
    have hg3 : (screenRowFields s).getD 3 [] = s.lastWatchedEpisode.getD [] := rfl
    rw [hg3]
    cases hlw : s.lastWatchedEpisode with
    | none => simp
    | some w =>
      have hwne : w ≠ [] := by
        intro hw
        exact h6 (by rw [hlw, hw])
      simp [hwne]
  have hidfield : (if (screenRowFields s).getD 2 [] ≠ [] then
      ((if (screenRowFields s).getD 5 [] = ("show").toList then ("tv").toList
        else (screenRowFields s).getD 5 []) ++ '_' :: (screenRowFields s).getD 2 [])
      else manualScreenId nowMs i) = s.id := by
    rw [if_pos (by rw [hid]; exact h1)]
    rw [htype, hid, h3]
  have haddedAt : some ((screenRowFields s).getD 0 []) = s.addedAt := by
    have hg0 : (screenRowFields s).getD 0 [] = s.addedAt.getD [] := rfl
    rw [hg0, ha]
    rfl
  have hfin : some ((screenRowFields s).getD 1 []) = s.finishedAt := by
    have hg1 : (screenRowFields s).getD 1 [] = s.finishedAt.getD [] := rfl
    rw [hg1, hf]
    rfl
  simp only [tsvToScreensAux]
  rw [htrim]
  rw [if_neg hrowne]
  rw [hsplit]
  rw [if_neg (by unfold screenRowFields; simp)]
  congr 1
  rw [hidfield, htype, htags, hlwe, haddedAt, hfin]
  rfl

theorem tsvToScreensAux_map_safe (nowMs : Nat) (screens : List Screen)
    (h : ∀ s ∈ screens, roundTripSafe s) : ∀ i,
    tsvToScreensAux nowMs i (screens.map (fun s => joinChar '\t' (screenRowFields s))) = screens := by
  induction screens with
  | nil => intro i; rfl
  | cons s rest ih =>
    intro i
    rw [List.map_cons, tsvToScreensAux_cons_safe nowMs i s _ (h s (by simp))]
    rw [ih (fun t ht => h t (by simp [ht])) (i + 1)]

/-- C4 counterexample: no field of `sC4` contains a tab, newline or
double quote, yet decode(encode([sC4])) is empty - the row's trailing
empty fields end in tab characters, the decoder's `line.trim()` strips
them, and the row is then skipped for having fewer than 10 parts, so
the item is lost rather than reproduced. -/
theorem c4_counterexample_trailing_empty_fields_lost :
    ((screenRowFields sC4).all (fun fld =>
        !(fld.contains '\t') && !(fld.contains '\n') && !(fld.contains '"'))) = true ∧
    tsvToScreens 0 (screensToTSV [sC4]) = [] := by
  decide

/-- C4 (amended): decode(encode(screens)) reproduces the screen list
exactly (not merely as a set, and with nothing but the unserialized
cached image to ignore - it is not modelled) provided every screen is
`roundTripSafe`: beyond the claim's tab/newline/quote-freedom, its
tmdbID is nonempty, its id has the derived shape, its type is not
`show`, its tags are nonempty and comma-free, `lastWatchedEpisode` is
not the empty string, `addedAt` and `finishedAt` are present as strings,
and the row survives trimming (`addedAt` does not start, and the
nonempty description does not end, with whitespace). -/
theorem c4_round_trip_amended (nowMs : Nat) (screens : List Screen)
    (h : ∀ s ∈ screens, roundTripSafe s) :
    tsvToScreens nowMs (screensToTSV screens) = screens := by
  cases screens with
  | nil => rfl
  | cons s0 srest =>
    unfold screensToTSV tsvToScreens
    have hnonl : ∀ r ∈ (s0 :: srest).map (fun s => joinChar '\t' (screenRowFields s)), '\n' ∉ r := by
      intro r hr hmem
      obtain ⟨sx, hsx, hrx⟩ := List.mem_map.mp hr
      rcases mem_joinChar '\t' (screenRowFields sx) '\n' (hrx ▸ hmem) with heq | ⟨fld, hfld, hnl⟩
      · exact absurd heq (by decide)
      · exact ((h sx hsx).2.2.2.1 fld hfld).2.1 hnl
    rw [splitOnChar_append_cons '\n' screenHeader _ (by decide)]
    rw [splitOnChar_joinChar '\n' _ (by simp) hnonl]
    rw [if_neg (by simp)]
    simp only [List.drop_succ_cons, List.drop_zero]
    exact tsvToScreensAux_map_safe nowMs _ h 1

/-- Witness for the amended C4 theorem at a concrete input. -/
theorem c4_round_trip_amended_witness :
    tsvToScreens 7 (screensToTSV [wC4]) = [wC4] :=
  c4_round_trip_amended 7 [wC4] (by decide)
